import Mathlib

/-!
Verification of the ModOverseer bot (files `overseer.py` and `reddit.py`).

The development shallowly embeds the parts of the program the claims are
about:

* the pydantic data model of mod-queue entries (`reddit.py`),
* the embed rendering function `ModOverseer.embed_from_queue_entry`
  (`overseer.py`, lines 205-225),
* one pass of the reconciliation loop body of `ModOverseer.modqueue_check`
  (`overseer.py`, lines 149-181), with the Discord channel modelled as a
  finite set of message ids plus a fresh-id counter, and with an optional
  failure index modelling one raising sink call (the `except` at lines
  183-185 catches any such exception at the cycle boundary),
* the channel-label renaming throttle (`overseer.py`, lines 174-179),
* the token manager of `RedditClient` (`reddit.py`, the `token_request`
  decorator at lines 17-28 and `get_access_token` at lines 64-84).

Python `datetime` instants are modelled as integers (unix seconds);
Python dicts (which preserve insertion order and have unique keys) are
modelled as association lists with python-dict update semantics.
-/

/- Data model: `reddit.py`, pydantic models `CommonData`, `CommentData`,
`LinkData`.  Field names and order follow the source. -/

structure CommonData where
  user_reports : List (String × Int × Bool × Bool)
  mod_reports : List (String × String × Bool × Bool)
  ups : Int
  score : Int
  approved_by : Option String
  approved : Bool
  created_utc : Int
  permalink : String
  num_reports : Int
  mod_reason_by : Option String
  removed : Bool
  id : String

structure CommentData extends CommonData where
  approved_at_utc : Option Int
  author_is_blocked : Bool
  edited : Bool
  banned_by : Option Bool
  author_flair_type : String
  total_awards_received : Int
  author : String
  link_author : String
  likes : Option Int
  ban_note : Option String
  banned_at_utc : Option Int
  mod_reason_title : Option String
  num_comments : Int
  parent_id : String
  author_fullname : String
  body : String
  link_title : String
  name : String
  downs : Int
  is_submitter : Bool
  link_id : String
  score_hidden : Bool
  link_permalink : String
  report_reasons : List String
  created : Int
  link_url : String
  locked : Bool

structure LinkData extends CommonData where
  approved_at_utc : Option Int
  selftext : String
  title : String
  upvote_ratio : Float
  ignore_reports : Bool
  is_original_content : Bool
  author_is_blocked : Bool
  author : String
  url : String
  is_self : Bool
  thumbnail : String

/-- A mod-queue entry: the tagged union `QueueCommentEntry` (`kind: "t1"`)
or `QueueLinkEntry` (`kind: "t3"`) of `reddit.py`. -/
inductive QueueEntry where
  | comment (data : CommentData)
  | link (data : LinkData)

/-- The `id` property of both entry classes: `self.data.id`. -/
def QueueEntry.id : QueueEntry → String
  | .comment d => d.id
  | .link d => d.id

/-- The `post_title` property: `link_title` for comments, `title` for links. -/
def QueueEntry.post_title : QueueEntry → String
  | .comment d => d.link_title
  | .link d => d.title

/-- The thumbnail an entry exposes: `QueueLinkEntry.thumbnail` returns
`self.data.thumbnail` (a plain string); comment entries have no thumbnail
attribute at all, modelled as `none`. -/
def QueueEntry.thumbnail : QueueEntry → Option String
  | .comment _ => none
  | .link d => some d.thumbnail

/-- `RedditClient.get_user_url` (`reddit.py`, lines 101-103). -/
def get_user_url (username : String) : String :=
  "https://www.reddit.com/u/" ++ username

/-- The two embed colours used at `overseer.py` lines 45-46 and 219. -/
inductive EmbedColour where
  | green
  | gold
deriving DecidableEq, Repr

/-- The discord embed produced by `embed_from_queue_entry`: the fields the
function writes (title, timestamp, description, url, author, optional
thumbnail, colour, the named report fields, footer text). -/
structure Embed where
  title : String
  timestamp : Int
  description : String
  url : String
  authorName : String
  authorUrl : String
  thumbnail : Option String
  colour : EmbedColour
  fields : List (String × String)
  footerText : String
deriving DecidableEq, Repr

/-- The "Reports" field value: `"\n".join(f"{c}: {t}" for t, c, _, _ in
entry.user_reports)` (`overseer.py`, line 221). -/
def userReportLines (reports : List (String × Int × Bool × Bool)) : String :=
  String.intercalate "\n" (reports.map (fun q => toString q.2.1 ++ ": " ++ q.1))

/-- The "Mod Reports" field value: `"\n".join(f"{a}: {t}" for t, a, _, _ in
entry.mod_reports)` (`overseer.py`, line 223). -/
def modReportLines (reports : List (String × String × Bool × Bool)) : String :=
  String.intercalate "\n" (reports.map (fun q => q.2.1 ++ ": " ++ q.1))

/-- The exception message raised by the link branch, see
`embed_from_queue_entry`. -/
def attrPostUrlMsg : String :=
  "AttributeError: QueueLinkEntry object has no attribute post_url"

/-- `ModOverseer.embed_from_queue_entry` (`overseer.py`, lines 205-225).

For a comment entry the function completes and returns the embed.  For a
link entry the source executes `embed.url = entry.post_url` (line 216),
but `QueueLinkEntry` defines no `post_url` attribute or property (the
property is named `post_link`), so the attribute access raises
`AttributeError` and the function never returns; this is modelled as
`Except.error`. -/
def embed_from_queue_entry : QueueEntry → Except String Embed
  | .comment d =>
    .ok { title := "Comment in '" ++ d.link_title ++ "'"
          timestamp := d.created_utc
          description := d.body
          url := d.link_permalink
          authorName := "u/" ++ d.author
          authorUrl := get_user_url d.author
          thumbnail := none
          colour := .green
          fields :=
            (if d.user_reports.isEmpty then []
             else [("Reports", userReportLines d.user_reports)]) ++
            (if d.mod_reports.isEmpty then []
             else [("Mod Reports", modReportLines d.mod_reports)])
          footerText := "Score: " ++ toString d.score }
  | .link _ => .error attrPostUrlMsg

/- The channel-label logic of `modqueue_check`, lines 174-179:

    original_name = channel.name.split("·", 1)[0]
    new_name = f"{original_name}·{len(entries)}"
    if new_name != channel.name and (self.now - self.last_channel_update) > datetime.timedelta(minutes=5):
        await channel.edit(name=new_name, reason="Queue count changed")
        self.last_channel_update = self.now
-/

/-- The separator character of the queue-count label. -/
def middot : Char := '·'

/-- The prefix of a list of characters up to (excluding) the first
occurrence of `sep`: character-level model of Python
`s.split(sep, 1)[0]` for a one-character separator. -/
def takeUntilSep (sep : Char) : List Char → List Char
  | [] => []
  | c :: cs => if c = sep then [] else c :: takeUntilSep sep cs

/-- `channel.name.split("·", 1)[0]` (`overseer.py`, line 174). -/
def channelBaseName (name : String) : String :=
  String.mk (takeUntilSep middot name.data)

/-- `f"{original_name}·{len(entries)}"` (`overseer.py`, line 175). -/
def queueChannelName (name : String) (count : Nat) : String :=
  channelBaseName name ++ "·" ++ toString count

/-- The cooldown of the channel rename, `datetime.timedelta(minutes=5)`
(`overseer.py`, line 177), in seconds. -/
def labelCooldownSeconds : Nat := 300

/-- The mutable state the label throttle reads and writes: `channel.name`
and `self.last_channel_update` (unix seconds). -/
structure LabelState where
  name : String
  lastUpdate : Nat
deriving DecidableEq, Repr

/-- One execution of `overseer.py` lines 174-179 at wall-clock time `now`
with `count = len(entries)`: returns the new state and whether
`channel.edit(name=...)` was performed. -/
def labelStep (st : LabelState) (now : Nat) (count : Nat) : LabelState × Bool :=
  let newName := queueChannelName st.name count
  if newName ≠ st.name ∧ labelCooldownSeconds < now - st.lastUpdate then
    (⟨newName, now⟩, true)
  else
    (st, false)

/-- Run the label logic over a trace of cycles, each given as
(wall-clock time, queue length); returns the times at which the channel
was actually renamed. -/
def labelRenameTimes (st : LabelState) : List (Nat × Nat) → List Nat
  | [] => []
  | a :: rest =>
    let s := labelStep st a.1 a.2
    if s.2 then a.1 :: labelRenameTimes s.1 rest else labelRenameTimes s.1 rest

/- Token manager: `reddit.py`, `RedditClient`. -/

/-- Outcome of one POST to the token endpoint as observed by
`get_access_token`: either a parsed JSON body carrying `access_token` and
`expires_in`, or any exception (network error, non-2xx body without the
keys, malformed response). -/
inductive ExchangeOutcome where
  | ok (accessToken : String) (expiresIn : Int)
  | exn
deriving DecidableEq, Repr

/-- The mutable fields of `RedditClient` the token logic touches:
`self.token`, `self.expire_time`, and `self.api_session` (modelled by the
bearer token baked into the session's headers; `none` means the session
was never created). -/
structure RedditClientState where
  token : Option String
  expireTime : Option Int
  apiSession : Option String
deriving DecidableEq, Repr

/-- `RedditClient.get_access_token` (`reddit.py`, lines 64-84): on success
stores the token, sets `expire_time = now + (expires_in - 10)` seconds and
replaces the api session, returning `True`; on any exception it logs,
leaves all state unchanged and returns `False` (no error is raised to the
caller). -/
def get_access_token (st : RedditClientState) (now : Int) :
    ExchangeOutcome → RedditClientState × Bool
  | .ok tok lifetime => (⟨some tok, some (now + (lifetime - 10)), some tok⟩, true)
  | .exn => (st, false)

/-- The refresh condition of the `token_request` decorator (`reddit.py`,
line 24): `args[0].token is None or datetime.datetime.now() >=
args[0].expire_time`.  The state `token = some _, expireTime = none`
cannot occur in the source (both fields are only ever set together by
`get_access_token`). -/
def token_request_check (st : RedditClientState) (now : Int) : Bool :=
  match st.token, st.expireTime with
  | none, _ => true
  | some _, none => true
  | some _, some t => decide (now ≥ t)

/-- The `token_request` decorator applied to `RedditClient.get_mod_queue`
(`reddit.py`, lines 17-28 and 86-99): if the refresh condition holds,
`get_access_token` runs once; in every case the wrapper then proceeds to
the wrapped function, whose first step is `self.api_session.get(...)`.
Returns (client state after the wrapper, number of token exchanges
performed, the session the dependent request attempt uses — `none` means
`api_session` is still `None` and the attribute access raises before any
HTTP call). -/
def get_mod_queue_wrapped (st : RedditClientState) (now : Int)
    (ex : ExchangeOutcome) : RedditClientState × Nat × Option String :=
  if token_request_check st now then
    let st2 := (get_access_token st now ex).1
    (st2, 1, st2.apiSession)
  else
    (st, 0, st.apiSession)

/- The reconciliation loop body of `ModOverseer.modqueue_check`
(`overseer.py`, lines 149-181).  `self.queue_map` is a python dict from
entry id to discord message id; the discord channel is modelled by the
set of message ids currently existing in it plus a fresh-id counter
(discord snowflake ids are fresh: every id ever issued is below the
counter). -/

/-- `self.queue_map`: a python dict entry-id → message-id, modelled as an
insertion-ordered association list with unique keys. -/
abbrev QueueMap := List (String × Nat)

/-- Python `key in dict`. -/
def dictContains : QueueMap → String → Bool
  | [], _ => false
  | p :: m, k => p.1 == k || dictContains m k

/-- Python `dict[key]` (total, returning 0 for a missing key; the source
only reads keys it has just tested for membership). -/
def dictGet : QueueMap → String → Nat
  | [], _ => 0
  | p :: m, k => if p.1 == k then p.2 else dictGet m k

/-- Python `dict[key] = value`: replaces the value in place for an
existing key, appends at the end for a new key. -/
def dictSet : QueueMap → String → Nat → QueueMap
  | [], k, v => [(k, v)]
  | p :: m, k, v => if p.1 == k then (k, v) :: m else p :: dictSet m k v

/-- Python `del dict[key]`. -/
def dictDel : QueueMap → String → QueueMap
  | [], _ => []
  | p :: m, k => if p.1 == k then m else p :: dictDel m k

/-- The discord text channel: the message ids currently existing in it,
plus the next fresh message id (every id discord ever issued is below
`nextId`). -/
structure Channel where
  msgs : List Nat
  nextId : Nat
deriving DecidableEq, Repr

/-- `channel.send(...)`: creates a message with a fresh id and returns it. -/
def Channel.send (ch : Channel) : Channel × Nat :=
  (⟨ch.msgs ++ [ch.nextId], ch.nextId + 1⟩, ch.nextId)

/-- `ModOverseer.safe_get_message` (`overseer.py`, lines 187-195):
`channel.fetch_message(message_id)`, returning `None` instead of raising
`discord.NotFound` when the message does not exist. -/
def safe_get_message (ch : Channel) (msgId : Nat) : Option Nat :=
  if msgId ∈ ch.msgs then some msgId else none

/-- `msg.delete()` as it affects the channel. -/
def Channel.deleteMsg (ch : Channel) (msgId : Nat) : Channel :=
  ⟨ch.msgs.erase msgId, ch.nextId⟩

/-- The sink operations one cycle performs against the channel:
`channel.send` (create), `msg.edit` (update), `msg.delete` (delete). -/
inductive SinkOp where
  | create (entryId : String) (msgId : Nat)
  | update (entryId : String) (msgId : Nat)
  | delete (msgId : Nat)
deriving DecidableEq, Repr

def SinkOp.isCreate : SinkOp → Bool
  | .create _ _ => true
  | _ => false

def SinkOp.isUpdate : SinkOp → Bool
  | .update _ _ => true
  | _ => false

def SinkOp.isDelete : SinkOp → Bool
  | .delete _ => true
  | _ => false

def SinkOp.isCreateFor (entryId : String) : SinkOp → Bool
  | .create i _ => i == entryId
  | _ => false

/-- The outcome of one pass of the loop body: the queue map and channel
after the pass, the sink operations performed (in order), the number of
mutating sink calls made, and whether the pass was aborted by an
exception (which the `except` at `overseer.py` lines 183-185 catches at
the cycle boundary, keeping all in-memory mutations made so far). -/
structure CycleResult where
  queueMap : QueueMap
  channel : Channel
  ops : List SinkOp
  calls : Nat
  aborted : Bool
deriving DecidableEq, Repr

/-- The per-entry loop of `modqueue_check` (`overseer.py`, lines 149-163).

`fail` optionally names the (0-based) index of the mutating sink call
(`channel.send` or `msg.edit`, counted together with the `msg.delete`
calls of the later pass) that raises an exception, modelling
`SinkOpError`; `k` is the index of the next such call.  The embed is
built before each send/edit call (it is their argument), so a link-kind
entry raises `AttributeError` there and aborts the pass; `msg.edit` keeps
the message id, `channel.send` binds the entry id to the fresh id. -/
def processEntriesF (fail : Option Nat) :
    Nat → QueueMap → Channel → List QueueEntry → CycleResult
  | k, qm, ch, [] => ⟨qm, ch, [], k, false⟩
  | k, qm, ch, r :: rest =>
    if dictContains qm r.id then
      -- source: the `else` branch of `if r.id not in self.queue_map`
      match safe_get_message ch (dictGet qm r.id) with
      | some mid =>
        match embed_from_queue_entry r with
        | .error _ => ⟨qm, ch, [], k, true⟩
        | .ok _ =>
          if fail = some k then ⟨qm, ch, [], k, true⟩
          else
            let res := processEntriesF fail (k + 1) qm ch rest
            ⟨res.queueMap, res.channel, SinkOp.update r.id mid :: res.ops,
             res.calls, res.aborted⟩
      | none =>
        -- message not found: re-add (self-healing), lines 160-163
        match embed_from_queue_entry r with
        | .error _ => ⟨qm, ch, [], k, true⟩
        | .ok _ =>
          if fail = some k then ⟨qm, ch, [], k, true⟩
          else
            let s := Channel.send ch
            let res := processEntriesF fail (k + 1) (dictSet qm r.id s.2) s.1 rest
            ⟨res.queueMap, res.channel, SinkOp.create r.id s.2 :: res.ops,
             res.calls, res.aborted⟩
    else
      -- source: `if r.id not in self.queue_map`, lines 151-154
      match embed_from_queue_entry r with
      | .error _ => ⟨qm, ch, [], k, true⟩
      | .ok _ =>
        if fail = some k then ⟨qm, ch, [], k, true⟩
        else
          let s := Channel.send ch
          let res := processEntriesF fail (k + 1) (dictSet qm r.id s.2) s.1 rest
          ⟨res.queueMap, res.channel, SinkOp.create r.id s.2 :: res.ops,
           res.calls, res.aborted⟩

/-- The gone-entries loop of `modqueue_check` (`overseer.py`, lines
164-173): iterates over `temp` (a snapshot copy of the dict taken after
the entry loop) while deleting from the live dict `qm`; an entry id not
in `ids` has its message deleted (when still present) and its binding
dropped; the binding is dropped after the delete call, so a raising
delete keeps it. -/
def processGoneF (fail : Option Nat) :
    Nat → QueueMap → QueueMap → Channel → List String → CycleResult
  | k, [], qm, ch, _ => ⟨qm, ch, [], k, false⟩
  | k, p :: temp, qm, ch, ids =>
    if p.1 ∈ ids then
      processGoneF fail k temp qm ch ids
    else
      match safe_get_message ch p.2 with
      | some _ =>
        if fail = some k then ⟨qm, ch, [], k, true⟩
        else
          let res := processGoneF fail (k + 1) temp (dictDel qm p.1)
            (Channel.deleteMsg ch p.2) ids
          ⟨res.queueMap, res.channel, SinkOp.delete p.2 :: res.ops,
           res.calls, res.aborted⟩
      | none =>
        processGoneF fail k temp (dictDel qm p.1) ch ids

/-- One pass of the loop body of `modqueue_check` (`overseer.py`, lines
149-173): the per-entry loop followed — when it did not raise — by the
gone-entries loop over `temp = {k: v for k, v in self.queue_map.items()}`
against `current_ids = [e.id for e in entries]`. -/
def modqueueCycleF (fail : Option Nat) (qm : QueueMap) (ch : Channel)
    (entries : List QueueEntry) : CycleResult :=
  let r1 := processEntriesF fail 0 qm ch entries
  if r1.aborted then r1
  else
    let r2 := processGoneF fail r1.calls r1.queueMap r1.queueMap r1.channel
      (entries.map QueueEntry.id)
    ⟨r2.queueMap, r2.channel, r1.ops ++ r2.ops, r2.calls, r2.aborted⟩

/-- One pass of the loop body in which no sink call fails. -/
def modqueueCycle : QueueMap → Channel → List QueueEntry → CycleResult :=
  modqueueCycleF none

/-- The bindings a run of creates produces: entry ids paired with the
consecutive fresh message ids starting at `base`.  This follows the
spec's reconciliation contract ("bind `e.id → new_message_id`"); the
theorems compare the source-derived cycle against it. -/
def specCreatePairs (base : Nat) : List QueueEntry → List (String × Nat)
  | [] => []
  | e :: rest => (e.id, base) :: specCreatePairs (base + 1) rest

/-- One `Create` per entry, carrying exactly the message id the entry got
bound to in `specCreatePairs`. -/
def specCreateOps (base : Nat) (l : List QueueEntry) : List SinkOp :=
  (specCreatePairs base l).map (fun p => SinkOp.create p.1 p.2)

/-- The message ids `base, base+1, ..., base+n-1` issued by `n`
consecutive sends. -/
def idsFrom (base : Nat) : Nat → List Nat
  | 0 => []
  | n + 1 => base :: idsFrom (base + 1) n

/- Spec-modelled definitions for the thumbnail-normalization claim.
`reddit.py` has no normalization code at all, so the prescribed behaviour
is modelled from the spec for comparison. -/

/-- Modelled from the spec: "a thumbnail value meaning "no thumbnail""
— the platform's sentinel strings that are not thumbnail URLs. -/
def specNoThumbnailSentinel (s : String) : Bool :=
  s == "self" || s == "default" || s == "nsfw" || s == "spoiler" || s == ""

/-- Modelled from the spec: "a thumbnail value meaning "no thumbnail"
must normalize to absent, not to a literal string" — the normalization
the fetcher is claimed to perform. -/
def specNormalizeThumbnail (s : String) : Option String :=
  if specNoThumbnailSentinel s then none else some s

/- Concrete sample entries used by witnesses and counterexamples. -/

/-- A concrete comment-kind queue entry (id "com1", post title "Foo"). -/
def sampleCommentData : CommentData :=
  { user_reports := [("Spam", 2, false, false)]
    mod_reports := []
    ups := 10
    score := 10
    approved_by := none
    approved := false
    created_utc := 1700000000
    permalink := "/r/test/comments/abc/x/com1"
    num_reports := 2
    mod_reason_by := none
    removed := false
    id := "com1"
    approved_at_utc := none
    author_is_blocked := false
    edited := false
    banned_by := none
    author_flair_type := "text"
    total_awards_received := 0
    author := "alice"
    link_author := "bob"
    likes := none
    ban_note := none
    banned_at_utc := none
    mod_reason_title := none
    num_comments := 3
    parent_id := "t3_abc"
    author_fullname := "t2_xyz"
    body := "a comment"
    link_title := "Foo"
    name := "t1_com1"
    downs := 0
    is_submitter := false
    link_id := "t3_abc"
    score_hidden := false
    link_permalink := "https://reddit.com/r/test/comments/abc/x/"
    report_reasons := []
    created := 1700000000
    link_url := "https://reddit.com/r/test/comments/abc/"
    locked := false }

/-- A second concrete comment-kind queue entry (id "com2"). -/
def sampleCommentData2 : CommentData :=
  { sampleCommentData with id := "com2", name := "t1_com2" }

/-- A concrete link-kind queue entry (id "post1", title "Foo", and the
thumbnail sentinel value "self" reddit sends for self posts). -/
def sampleLinkData : LinkData :=
  { user_reports := []
    mod_reports := []
    ups := 5
    score := 5
    approved_by := none
    approved := false
    created_utc := 1700000100
    permalink := "/r/test/comments/post1/"
    num_reports := 0
    mod_reason_by := none
    removed := false
    id := "post1"
    approved_at_utc := none
    selftext := "body text"
    title := "Foo"
    upvote_ratio := 0.5
    ignore_reports := false
    is_original_content := false
    author_is_blocked := false
    author := "carol"
    url := "https://example.com/x"
    is_self := false
    thumbnail := "self" }

/-- The client state after an earlier successful exchange whose token has
gone stale: `token` and `api_session` carry the old bearer token and
`expire_time` is 100 (so any `now ≥ 100` is past expiry). -/
def staleClientState : RedditClientState :=
  ⟨some "oldtoken", some 100, some "oldtoken"⟩

/- Helper lemmas about the label derivation. -/

theorem takeUntilSep_not_mem (sep : Char) (l : List Char) :
    sep ∉ takeUntilSep sep l := by
  induction l with
  | nil => simp [takeUntilSep]
  | cons c cs ih =>
    by_cases h : c = sep
    · simp [takeUntilSep, h]
    · simp only [takeUntilSep, if_neg h, List.mem_cons, not_or]
      exact ⟨fun hh => h hh.symm, ih⟩

theorem takeUntilSep_append (sep : Char) (a t : List Char) (h : sep ∉ a) :
    takeUntilSep sep (a ++ sep :: t) = a := by
  induction a with
  | nil => simp [takeUntilSep]
  | cons c cs ih =>
    have hc : ¬ (c = sep) := fun hc => h (by simp [hc])
    have hcs : sep ∉ cs := fun hm => h (List.mem_cons_of_mem c hm)
    simp only [List.cons_append, takeUntilSep, if_neg hc]
    exact congrArg (List.cons c) (ih hcs)

theorem string_data_append (s1 s2 : String) :
    (s1 ++ s2).data = s1.data ++ s2.data := rfl

/-- Claim C10 (confirmed): the queue-count label derivation of
`overseer.py` lines 174-175 is idempotent: deriving the new channel name
from an already-derived name yields the same string, because the part
before the first "·" of a derived name is exactly the original base
name. -/
theorem queue_label_idempotent (n : String) (c : Nat) :
    queueChannelName (queueChannelName n c) c = queueChannelName n c := by
  have hdata : (queueChannelName n c).data
      = takeUntilSep middot n.data ++ middot :: (toString c).data := by
    show (channelBaseName n ++ "·" ++ toString c).data = _
    rw [string_data_append, string_data_append]
    show takeUntilSep middot n.data ++ [middot] ++ (toString c).data = _
    simp
  show channelBaseName (queueChannelName n c) ++ "·" ++ toString c = _
  unfold channelBaseName
  rw [hdata, takeUntilSep_append _ _ _ (takeUntilSep_not_mem middot n.data)]
  rfl

/-- Claim C9 (confirmed): the queue-count label is never renamed twice
within one cooldown window.  Over any trace of loop iterations (arbitrary
wall-clock times and queue sizes, so in particular independent of the
2-minute poll cadence of `await asyncio.sleep(120)`), every rename the
guard at `overseer.py` line 177 lets through is more than
`labelCooldownSeconds` after the previous `last_channel_update`, so any
two rename times are more than the cooldown apart. -/
theorem label_renames_spaced (st : LabelState) (trace : List (Nat × Nat)) :
    (∀ t ∈ labelRenameTimes st trace, st.lastUpdate + labelCooldownSeconds < t) ∧
    List.Pairwise (fun a b => a + labelCooldownSeconds < b)
      (labelRenameTimes st trace) := by
  induction trace generalizing st with
  | nil => simp [labelRenameTimes]
  | cons a rest ih =>
    by_cases h : queueChannelName st.name a.2 ≠ st.name ∧
        labelCooldownSeconds < a.1 - st.lastUpdate
    · have hrec := ih ⟨queueChannelName st.name a.2, a.1⟩
      have hgap : st.lastUpdate + labelCooldownSeconds < a.1 := by
        have h2 := h.2
        omega
      simp only [labelRenameTimes, labelStep, if_pos h, if_true]
      constructor
      · intro t ht
        rcases List.mem_cons.mp ht with rfl | ht
        · exact hgap
        · have hr := hrec.1 t ht
          simp only at hr
          omega
      · refine List.pairwise_cons.mpr ⟨fun b hb => ?_, hrec.2⟩
        have hr := hrec.1 b hb
        simpa using hr
    · simp only [labelRenameTimes, labelStep, if_neg h]
      exact ih st

/-- Claim C5, counterexample: with a stale credential (the exchange at
time 200 is needed since `expire_time = 100`), a failed exchange does not
raise: `get_access_token` returns `False` with the state unchanged, the
wrapper ignores that result, and the dependent request is attempted with
the old session carrying the stale bearer token — the claim says the
token manager fails with an `AuthError` and the dependent request is not
attempted. -/
theorem auth_failure_counterexample :
    get_access_token staleClientState 200 ExchangeOutcome.exn
      = (staleClientState, false) ∧
    get_mod_queue_wrapped staleClientState 200 ExchangeOutcome.exn
      = (staleClientState, 1, some "oldtoken") :=
  ⟨rfl, rfl⟩

/-- Claim C5 (corrected): on a failed token exchange `get_access_token`
swallows the exception and returns `False` leaving the client state
unchanged; the `token_request` wrapper ignores the returned flag, so the
dependent request is still attempted — with the previous (stale) session
when one exists, or crashing on the missing `api_session` otherwise; the
cycle then fails from that request's own error, not from an `AuthError`. -/
theorem auth_failure_request_attempted (st : RedditClientState) (now : Int)
    (h : token_request_check st now = true) :
    get_access_token st now ExchangeOutcome.exn = (st, false) ∧
    get_mod_queue_wrapped st now ExchangeOutcome.exn = (st, 1, st.apiSession) := by
  refine ⟨rfl, ?_⟩
  simp [get_mod_queue_wrapped, h, get_access_token]

/-- Witness for `auth_failure_request_attempted` at the stale client
state and time 200. -/
theorem auth_failure_request_attempted_witness :
    token_request_check staleClientState 200 = true ∧
    get_mod_queue_wrapped staleClientState 200 ExchangeOutcome.exn
      = (staleClientState, 1, staleClientState.apiSession) :=
  ⟨by decide, (auth_failure_request_attempted staleClientState 200 (by decide)).2⟩

/-- Claim C6 (confirmed): for a call made while a credential exists
(`token = some tok`, `expire_time = some t`), the `token_request`
decorator performs exactly one token exchange before the dependent
request when `now` is at or past the expiry, and zero exchanges when
`now` is before the expiry. -/
theorem token_refresh_exchange_count (st : RedditClientState) (tok : String)
    (t now : Int) (ex : ExchangeOutcome)
    (htok : st.token = some tok) (hexp : st.expireTime = some t) :
    (t ≤ now → (get_mod_queue_wrapped st now ex).2.1 = 1) ∧
    (now < t → (get_mod_queue_wrapped st now ex).2.1 = 0) := by
  have hch : token_request_check st now = decide (now ≥ t) := by
    simp [token_request_check, htok, hexp]
  constructor
  · intro h
    have : token_request_check st now = true := by
      rw [hch]; simpa [ge_iff_le] using h
    simp [get_mod_queue_wrapped, this]
  · intro h
    have : token_request_check st now = false := by
      rw [hch]; simpa [ge_iff_le] using not_le.mpr h
    simp [get_mod_queue_wrapped, this]

/-- Witness for `token_refresh_exchange_count`: with `expire_time = 100`,
a call at time 150 performs one exchange and a call at time 50 performs
none. -/
theorem token_refresh_exchange_count_witness :
    (get_mod_queue_wrapped staleClientState 150 ExchangeOutcome.exn).2.1 = 1 ∧
    (get_mod_queue_wrapped staleClientState 50 ExchangeOutcome.exn).2.1 = 0 :=
  ⟨(token_refresh_exchange_count staleClientState "oldtoken" 100 150
      ExchangeOutcome.exn rfl rfl).1 (by decide),
   (token_refresh_exchange_count staleClientState "oldtoken" 100 50
      ExchangeOutcome.exn rfl rfl).2 (by decide)⟩

/-- Claim C7, counterexample: reddit's sentinel thumbnail value "self"
(meaning "no thumbnail") is a sentinel per the spec's normalization rule,
yet the parsed link entry exposes it verbatim as `some "self"` — a
literal string, not the absent value the claim requires. -/
theorem thumbnail_sentinel_counterexample :
    specNoThumbnailSentinel sampleLinkData.thumbnail = true ∧
    specNormalizeThumbnail sampleLinkData.thumbnail = none ∧
    (QueueEntry.link sampleLinkData).thumbnail = some "self" ∧
    (QueueEntry.link sampleLinkData).thumbnail ≠ none := by
  refine ⟨rfl, rfl, rfl, ?_⟩
  decide

/-- Claim C7 (corrected): the fetcher performs no normalization at all —
`LinkData.thumbnail` is a plain string field, so a link entry always
exposes the stored value verbatim as `some d.thumbnail`; in particular
for a sentinel value the exposed thumbnail is the literal sentinel
string, not the absent value the spec's normalization would produce. -/
theorem thumbnail_kept_verbatim (d : LinkData)
    (h : specNoThumbnailSentinel d.thumbnail = true) :
    (QueueEntry.link d).thumbnail = some d.thumbnail ∧
    (QueueEntry.link d).thumbnail ≠ specNormalizeThumbnail d.thumbnail := by
  refine ⟨rfl, ?_⟩
  simp [QueueEntry.thumbnail, specNormalizeThumbnail, h]

/-- Witness for `thumbnail_kept_verbatim` at the sample link entry whose
thumbnail is the sentinel "self". -/
theorem thumbnail_kept_verbatim_witness :
    (QueueEntry.link sampleLinkData).thumbnail = some sampleLinkData.thumbnail ∧
    (QueueEntry.link sampleLinkData).thumbnail
      ≠ specNormalizeThumbnail sampleLinkData.thumbnail :=
  thumbnail_kept_verbatim sampleLinkData (by decide)

/-- Claim C8 (code bug): a comment-kind entry with post title "Foo" does
render the display title "Comment in 'Foo'" (proved here for every
comment entry), but a link-kind entry renders no title at all: the link
branch of `embed_from_queue_entry` accesses `entry.post_url`
(`overseer.py` line 216), an attribute `QueueLinkEntry` does not define
(the property is named `post_link`), so the call raises `AttributeError`
instead of producing the display title "Foo". -/
theorem embed_title_rendering_bug :
    (∀ d : CommentData,
      (embed_from_queue_entry (QueueEntry.comment d)).map Embed.title
        = Except.ok ("Comment in '" ++ (QueueEntry.comment d).post_title ++ "'")) ∧
    (QueueEntry.link sampleLinkData).post_title = "Foo" ∧
    embed_from_queue_entry (QueueEntry.link sampleLinkData)
      = Except.error attrPostUrlMsg :=
  ⟨fun _ => rfl, rfl, rfl⟩

/- Helper lemmas about the python-dict model. -/

theorem exists_ok_of_isOk {em : Except String Embed} (h : em.isOk = true) :
    ∃ e, em = Except.ok e := by
  cases em with
  | ok e => exact ⟨e, rfl⟩
  | error s => simp [Except.isOk, Except.toBool] at h

theorem dictContains_append (m1 m2 : QueueMap) (k : String) :
    dictContains (m1 ++ m2) k = (dictContains m1 k || dictContains m2 k) := by
  induction m1 with
  | nil => simp [dictContains]
  | cons p m ih => simp [dictContains, ih, Bool.or_assoc]

theorem dictContains_of_mem_keys (m : QueueMap) (k : String)
    (h : k ∈ m.map Prod.fst) : dictContains m k = true := by
  induction m with
  | nil => simp at h
  | cons p rest ih =>
    simp only [List.map_cons, List.mem_cons] at h
    rcases h with rfl | h
    · simp [dictContains]
    · simp [dictContains, ih h]

theorem dictGet_mem (m : QueueMap) (k : String) (h : dictContains m k = true) :
    (k, dictGet m k) ∈ m := by
  induction m with
  | nil => simp [dictContains] at h
  | cons p rest ih =>
    by_cases hp : p.1 == k
    · have hpk : p.1 = k := by simpa using hp
      simp only [dictGet, if_pos hp, List.mem_cons]
      left
      rw [← hpk]
    · have h' : dictContains rest k = true := by
        simpa [dictContains, hp] using h
      simp only [dictGet, if_neg hp, List.mem_cons]
      exact Or.inr (ih h')

theorem dictSet_of_not_contains (m : QueueMap) (k : String) (v : Nat)
    (h : dictContains m k = false) : dictSet m k v = m ++ [(k, v)] := by
  induction m with
  | nil => simp [dictSet]
  | cons p rest ih =>
    simp only [dictContains, Bool.or_eq_false_iff] at h
    simp [dictSet, h.1, ih h.2]

theorem dictGet_dictSet_self (m : QueueMap) (k : String) (v : Nat) :
    dictGet (dictSet m k v) k = v := by
  induction m with
  | nil => simp [dictSet, dictGet]
  | cons p rest ih =>
    by_cases hp : p.1 == k
    · simp [dictSet, hp, dictGet]
    · simp [dictSet, hp, dictGet, ih]

theorem dictGet_dictSet_ne (m : QueueMap) (k q : String) (v : Nat)
    (h : ¬ (q = k)) : dictGet (dictSet m k v) q = dictGet m q := by
  have hkq : (k == q) = false := beq_eq_false_iff_ne.mpr (fun hh => h hh.symm)
  induction m with
  | nil => simp [dictSet, dictGet, hkq]
  | cons p rest ih =>
    by_cases hp : p.1 == k
    · have hpk : p.1 = k := by simpa using hp
      have hpq : (p.1 == q) = false := by rw [hpk]; exact hkq
      simp [dictSet, hp, dictGet, hkq, hpq]
    · simp [dictSet, hp, dictGet, ih]

theorem dictContains_dictSet_ne (m : QueueMap) (k q : String) (v : Nat)
    (h : ¬ (q = k)) : dictContains (dictSet m k v) q = dictContains m q := by
  have hkq : (k == q) = false := beq_eq_false_iff_ne.mpr (fun hh => h hh.symm)
  induction m with
  | nil => simp [dictSet, dictContains, hkq]
  | cons p rest ih =>
    by_cases hp : p.1 == k
    · have hpk : p.1 = k := by simpa using hp
      have hpq : (p.1 == q) = false := by rw [hpk]; exact hkq
      simp [dictSet, hp, dictContains, hkq, hpq]
    · simp [dictSet, hp, dictContains, ih]

theorem dictSet_keys_of_contains (m : QueueMap) (k : String) (v : Nat)
    (h : dictContains m k = true) :
    (dictSet m k v).map Prod.fst = m.map Prod.fst := by
  induction m with
  | nil => simp [dictContains] at h
  | cons p rest ih =>
    by_cases hp : p.1 == k
    · have hpk : p.1 = k := by simpa using hp
      simp [dictSet, hp, hpk]
    · have h' : dictContains rest k = true := by
        simpa [dictContains, hp] using h
      simp [dictSet, hp, ih h']

theorem dictDel_middle (P Q : QueueMap) (eid : String) (v : Nat)
    (h : eid ∉ P.map Prod.fst) :
    dictDel (P ++ (eid, v) :: Q) eid = P ++ Q := by
  induction P with
  | nil => simp [dictDel]
  | cons p rest ih =>
    have hp : ¬ ((p.1 == eid) = true) := by
      simp only [beq_iff_eq]
      intro hh
      exact h (by simp [hh])
    have hrest : eid ∉ rest.map Prod.fst :=
      fun hm => h (by simp only [List.map_cons, List.mem_cons]; exact Or.inr hm)
    simp only [List.cons_append, dictDel, if_neg hp]
    exact congrArg (List.cons p) (ih hrest)

theorem specCreatePairs_keys (base : Nat) (l : List QueueEntry) :
    ∀ p ∈ specCreatePairs base l, p.1 ∈ l.map QueueEntry.id := by
  induction l generalizing base with
  | nil => simp [specCreatePairs]
  | cons e rest ih =>
    intro p hp
    simp only [specCreatePairs, List.mem_cons] at hp
    rcases hp with rfl | hp
    · simp
    · simp only [List.map_cons, List.mem_cons]
      exact Or.inr (ih (base + 1) p hp)

theorem nodup_middle_parts (A B : List QueueEntry) (e : QueueEntry)
    (h : ((A ++ e :: B).map QueueEntry.id).Nodup) :
    e.id ∉ A.map QueueEntry.id ∧ e.id ∉ B.map QueueEntry.id := by
  rw [List.map_append, List.map_cons] at h
  have h2 := List.nodup_middle.mp h
  have h3 := (List.nodup_cons.mp h2).1
  rw [List.mem_append] at h3
  exact ⟨fun hm => h3 (Or.inl hm), fun hm => h3 (Or.inr hm)⟩

/- Behaviour of the entry pass and the gone pass of the loop body. -/

theorem processEntriesF_all_new (entries : List QueueEntry) (k : Nat)
    (qm : QueueMap) (ch : Channel)
    (hnew : ∀ e ∈ entries, dictContains qm e.id = false)
    (hrender : ∀ e ∈ entries, (embed_from_queue_entry e).isOk = true)
    (hnodup : (entries.map QueueEntry.id).Nodup) :
    processEntriesF none k qm ch entries =
      ⟨qm ++ specCreatePairs ch.nextId entries,
       ⟨ch.msgs ++ idsFrom ch.nextId entries.length, ch.nextId + entries.length⟩,
       specCreateOps ch.nextId entries, k + entries.length, false⟩ := by
  induction entries generalizing k qm ch with
  | nil => simp [processEntriesF, specCreatePairs, specCreateOps, idsFrom]
  | cons e rest ih =>
    have hce : dictContains qm e.id = false := hnew e (List.mem_cons_self e rest)
    obtain ⟨em, hem⟩ := exists_ok_of_isOk (hrender e (List.mem_cons_self e rest))
    have hnodup' : (∀ x ∈ rest, ¬ QueueEntry.id x = e.id) ∧
        (rest.map QueueEntry.id).Nodup := by simpa using hnodup
    have hnew' : ∀ r ∈ rest,
        dictContains (qm ++ [(e.id, ch.nextId)]) r.id = false := by
      intro r hr
      have h1 : dictContains qm r.id = false := hnew r (List.mem_cons_of_mem e hr)
      have h2 : (e.id == r.id) = false := beq_eq_false_iff_ne.mpr
        (fun hh => hnodup'.1 r hr hh.symm)
      simp [dictContains_append, dictContains, h1, h2]
    have hrec := ih (k + 1) (qm ++ [(e.id, ch.nextId)])
      ⟨ch.msgs ++ [ch.nextId], ch.nextId + 1⟩ hnew'
      (fun r hr => hrender r (List.mem_cons_of_mem e hr)) hnodup'.2
    simp only [processEntriesF, hce, hem, Bool.false_eq_true, if_false,
      Channel.send, reduceCtorEq, if_false]
    rw [dictSet_of_not_contains qm e.id ch.nextId hce]
    rw [hrec]
    simp [specCreatePairs, specCreateOps, idsFrom, List.append_assoc]
    omega

theorem processGoneF_all_present (temp : QueueMap) (k : Nat) (qm : QueueMap)
    (ch : Channel) (ids : List String)
    (h : ∀ p ∈ temp, p.1 ∈ ids) :
    processGoneF none k temp qm ch ids = ⟨qm, ch, [], k, false⟩ := by
  induction temp with
  | nil => simp [processGoneF]
  | cons p rest ih =>
    have hp : p.1 ∈ ids := h p (List.mem_cons_self p rest)
    simp only [processGoneF, if_pos hp]
    exact ih (fun q hq => h q (List.mem_cons_of_mem p hq))

theorem processEntriesF_all_live (entries : List QueueEntry) (k : Nat)
    (qm : QueueMap) (ch : Channel)
    (hcont : ∀ e ∈ entries, dictContains qm e.id = true)
    (hlive : ∀ e ∈ entries, dictGet qm e.id ∈ ch.msgs)
    (hrender : ∀ e ∈ entries, (embed_from_queue_entry e).isOk = true) :
    processEntriesF none k qm ch entries =
      ⟨qm, ch, entries.map (fun e => SinkOp.update e.id (dictGet qm e.id)),
       k + entries.length, false⟩ := by
  induction entries generalizing k with
  | nil => simp [processEntriesF]
  | cons e rest ih =>
    have hce := hcont e (List.mem_cons_self e rest)
    have hle := hlive e (List.mem_cons_self e rest)
    obtain ⟨em, hem⟩ := exists_ok_of_isOk (hrender e (List.mem_cons_self e rest))
    have hfetch : safe_get_message ch (dictGet qm e.id)
        = some (dictGet qm e.id) := by
      simp [safe_get_message, hle]
    have hrec := ih (k + 1) (fun r hr => hcont r (List.mem_cons_of_mem e hr))
      (fun r hr => hlive r (List.mem_cons_of_mem e hr))
      (fun r hr => hrender r (List.mem_cons_of_mem e hr))
    simp only [processEntriesF, hce, if_true, hfetch, hem, reduceCtorEq, if_false]
    rw [hrec]
    simp
    omega

theorem processGoneF_one_gone (P Q : QueueMap) (eid : String) (me : Nat)
    (k : Nat) (qm : QueueMap) (ch : Channel) (ids : List String)
    (hP : ∀ p ∈ P, p.1 ∈ ids) (hQ : ∀ p ∈ Q, p.1 ∈ ids)
    (he : eid ∉ ids) (hm : me ∈ ch.msgs) :
    processGoneF none k (P ++ (eid, me) :: Q) qm ch ids =
      ⟨dictDel qm eid, Channel.deleteMsg ch me, [SinkOp.delete me],
       k + 1, false⟩ := by
  induction P with
  | nil =>
    have hfetch : safe_get_message ch me = some me := by
      simp [safe_get_message, hm]
    simp only [List.nil_append, processGoneF, if_neg he, hfetch, reduceCtorEq,
      if_false]
    rw [processGoneF_all_present Q (k + 1) (dictDel qm eid)
      (Channel.deleteMsg ch me) ids hQ]
  | cons p rest ih =>
    have hp : p.1 ∈ ids := hP p (List.mem_cons_self p rest)
    simp only [List.cons_append, processGoneF, if_pos hp]
    exact ih (fun q hq => hP q (List.mem_cons_of_mem p hq))

theorem map_update_congr (l : List QueueEntry) (f g : QueueEntry → Nat)
    (h : ∀ r ∈ l, f r = g r) :
    l.map (fun r => SinkOp.update r.id (f r))
      = l.map (fun r => SinkOp.update r.id (g r)) := by
  induction l with
  | nil => rfl
  | cons a rest ih =>
    simp only [List.map_cons]
    rw [h a (List.mem_cons_self a rest),
      ih (fun r hr => h r (List.mem_cons_of_mem a hr))]

theorem processEntriesF_self_heal (A B : List QueueEntry) (e : QueueEntry)
    (k : Nat) (qm : QueueMap) (ch : Channel)
    (hcontA : ∀ r ∈ A, dictContains qm r.id = true)
    (hliveA : ∀ r ∈ A, dictGet qm r.id ∈ ch.msgs)
    (hcontB : ∀ r ∈ B, dictContains qm r.id = true)
    (hliveB : ∀ r ∈ B, dictGet qm r.id ∈ ch.msgs)
    (hneB : ∀ r ∈ B, ¬ QueueEntry.id r = e.id)
    (hrender : ∀ r ∈ A ++ e :: B, (embed_from_queue_entry r).isOk = true)
    (hcontE : dictContains qm e.id = true)
    (hdeadE : dictGet qm e.id ∉ ch.msgs) :
    processEntriesF none k qm ch (A ++ e :: B) =
      ⟨dictSet qm e.id ch.nextId, ⟨ch.msgs ++ [ch.nextId], ch.nextId + 1⟩,
       A.map (fun r => SinkOp.update r.id (dictGet qm r.id)) ++
         SinkOp.create e.id ch.nextId ::
           B.map (fun r => SinkOp.update r.id (dictGet qm r.id)),
       k + (A.length + (B.length + 1)), false⟩ := by
  induction A generalizing k with
  | nil =>
    have hfetch : safe_get_message ch (dictGet qm e.id) = none := by
      simp [safe_get_message, hdeadE]
    obtain ⟨em, hem⟩ := exists_ok_of_isOk (hrender e (by simp))
    have hcontB' : ∀ r ∈ B,
        dictContains (dictSet qm e.id ch.nextId) r.id = true := by
      intro r hr
      rw [dictContains_dictSet_ne qm e.id r.id ch.nextId (hneB r hr)]
      exact hcontB r hr
    have hliveB' : ∀ r ∈ B,
        dictGet (dictSet qm e.id ch.nextId) r.id
          ∈ (⟨ch.msgs ++ [ch.nextId], ch.nextId + 1⟩ : Channel).msgs := by
      intro r hr
      rw [dictGet_dictSet_ne qm e.id r.id ch.nextId (hneB r hr)]
      exact List.mem_append_left _ (hliveB r hr)
    have hrec := processEntriesF_all_live B (k + 1) (dictSet qm e.id ch.nextId)
      ⟨ch.msgs ++ [ch.nextId], ch.nextId + 1⟩ hcontB' hliveB'
      (fun r hr => hrender r (by simp [hr]))
    simp only [List.nil_append, processEntriesF, hcontE, if_true, hfetch, hem,
      reduceCtorEq, if_false, Channel.send]
    rw [hrec]
    rw [map_update_congr B (fun r => dictGet (dictSet qm e.id ch.nextId) r.id)
      (fun r => dictGet qm r.id)
      (fun r hr => dictGet_dictSet_ne qm e.id r.id ch.nextId (hneB r hr))]
    simp
    omega
  | cons a A2 ih =>
    have hca := hcontA a (List.mem_cons_self a A2)
    have hla := hliveA a (List.mem_cons_self a A2)
    obtain ⟨em, hem⟩ := exists_ok_of_isOk (hrender a (by simp))
    have hfetch : safe_get_message ch (dictGet qm a.id)
        = some (dictGet qm a.id) := by
      simp [safe_get_message, hla]
    have hrec := ih (k + 1) (fun r hr => hcontA r (List.mem_cons_of_mem a hr))
      (fun r hr => hliveA r (List.mem_cons_of_mem a hr))
      (fun r hr => hrender r (List.mem_cons_of_mem a hr))
    simp only [List.cons_append, processEntriesF, hca, if_true, hfetch, hem,
      reduceCtorEq, if_false, List.append_eq]
    rw [hrec]
    simp
    omega

theorem specCreateOps_countP_update (base : Nat) (l : List QueueEntry) :
    (specCreateOps base l).countP SinkOp.isUpdate = 0 := by
  refine List.countP_eq_zero.mpr ?_
  intro op hop
  simp only [specCreateOps, List.mem_map] at hop
  obtain ⟨p, hp, rfl⟩ := hop
  simp [SinkOp.isUpdate]

theorem specCreateOps_countP_delete (base : Nat) (l : List QueueEntry) :
    (specCreateOps base l).countP SinkOp.isDelete = 0 := by
  refine List.countP_eq_zero.mpr ?_
  intro op hop
  simp only [specCreateOps, List.mem_map] at hop
  obtain ⟨p, hp, rfl⟩ := hop
  simp [SinkOp.isDelete]

theorem specCreateOps_countP_createFor (x : String) (base : Nat)
    (l : List QueueEntry) :
    (specCreateOps base l).countP (SinkOp.isCreateFor x)
      = (l.map QueueEntry.id).count x := by
  induction l generalizing base with
  | nil => simp [specCreateOps, specCreatePairs]
  | cons e rest ih =>
    have h := ih (base + 1)
    simp only [specCreateOps, specCreatePairs, List.map_cons, List.countP_cons] at *
    simp [SinkOp.isCreateFor, List.count_cons, h]

theorem processEntriesF_all_new_fails (entries : List QueueEntry) (j k : Nat)
    (qm : QueueMap) (ch : Channel)
    (hnew : ∀ e ∈ entries, dictContains qm e.id = false)
    (hrender : ∀ e ∈ entries, (embed_from_queue_entry e).isOk = true)
    (hnodup : (entries.map QueueEntry.id).Nodup)
    (hj : j < entries.length) :
    processEntriesF (some (k + j)) k qm ch entries =
      ⟨qm ++ specCreatePairs ch.nextId (entries.take j),
       ⟨ch.msgs ++ idsFrom ch.nextId j, ch.nextId + j⟩,
       specCreateOps ch.nextId (entries.take j), k + j, true⟩ := by
  induction entries generalizing j k qm ch with
  | nil => simp at hj
  | cons e rest ih =>
    have hce : dictContains qm e.id = false := hnew e (List.mem_cons_self e rest)
    obtain ⟨em, hem⟩ := exists_ok_of_isOk (hrender e (List.mem_cons_self e rest))
    have hnodup' : (∀ x ∈ rest, ¬ QueueEntry.id x = e.id) ∧
        (rest.map QueueEntry.id).Nodup := by simpa using hnodup
    cases j with
    | zero =>
      simp [processEntriesF, hce, hem, specCreatePairs, specCreateOps, idsFrom]
    | succ j2 =>
      have hne : ¬ (some (k + (j2 + 1)) = some k) := by
        simp only [Option.some.injEq]
        omega
      have hnew' : ∀ r ∈ rest,
          dictContains (qm ++ [(e.id, ch.nextId)]) r.id = false := by
        intro r hr
        have h1 : dictContains qm r.id = false := hnew r (List.mem_cons_of_mem e hr)
        have h2 : (e.id == r.id) = false := beq_eq_false_iff_ne.mpr
          (fun hh => hnodup'.1 r hr hh.symm)
        simp [dictContains_append, dictContains, h1, h2]
      have hj2 : j2 < rest.length := by
        simp only [List.length_cons] at hj
        omega
      have harg : k + (j2 + 1) = (k + 1) + j2 := by omega
      have hrec := ih j2 (k + 1) (qm ++ [(e.id, ch.nextId)])
        ⟨ch.msgs ++ [ch.nextId], ch.nextId + 1⟩ hnew'
        (fun r hr => hrender r (List.mem_cons_of_mem e hr)) hnodup'.2 hj2
      simp only [processEntriesF, hce, Bool.false_eq_true, if_false, hem,
        if_neg hne, Channel.send]
      rw [dictSet_of_not_contains qm e.id ch.nextId hce, harg, hrec]
      simp [specCreatePairs, specCreateOps, idsFrom, List.append_assoc]
      omega

/-- Claim C1 (corrected): for a snapshot with pairwise-distinct ids all
of whose entries render successfully (comment-kind entries; link-kind
rendering raises, see `embed_from_queue_entry`), a cycle against an
empty `queue_map` sends exactly one message per entry — the ops are
exactly `specCreateOps` (one `Create` per entry in snapshot order, so
zero `Update` and zero `Delete`), and the resulting map is
`specCreatePairs`, binding each entry id to precisely the message id its
`Create` returned. -/
theorem reconcile_empty_map_all_creates (entries : List QueueEntry)
    (ch : Channel)
    (hnodup : (entries.map QueueEntry.id).Nodup)
    (hrender : ∀ e ∈ entries, (embed_from_queue_entry e).isOk = true) :
    modqueueCycle [] ch entries =
      ⟨specCreatePairs ch.nextId entries,
       ⟨ch.msgs ++ idsFrom ch.nextId entries.length, ch.nextId + entries.length⟩,
       specCreateOps ch.nextId entries, entries.length, false⟩ ∧
    (modqueueCycle [] ch entries).ops.countP SinkOp.isUpdate = 0 ∧
    (modqueueCycle [] ch entries).ops.countP SinkOp.isDelete = 0 ∧
    ∀ e ∈ entries,
      (modqueueCycle [] ch entries).ops.countP (SinkOp.isCreateFor e.id) = 1 := by
  have h1 := processEntriesF_all_new entries 0 [] ch (fun e he => rfl)
    hrender hnodup
  have hcycle : modqueueCycle [] ch entries =
      ⟨specCreatePairs ch.nextId entries,
       ⟨ch.msgs ++ idsFrom ch.nextId entries.length, ch.nextId + entries.length⟩,
       specCreateOps ch.nextId entries, entries.length, false⟩ := by
    unfold modqueueCycle modqueueCycleF
    rw [h1]
    simp only [Bool.false_eq_true, if_false, List.nil_append, Nat.zero_add]
    rw [processGoneF_all_present _ _ _ _ _ (specCreatePairs_keys ch.nextId entries)]
    simp
  refine ⟨hcycle, ?_, ?_, ?_⟩
  · rw [hcycle]
    exact specCreateOps_countP_update ch.nextId entries
  · rw [hcycle]
    exact specCreateOps_countP_delete ch.nextId entries
  · intro e he
    rw [hcycle]
    show (specCreateOps ch.nextId entries).countP (SinkOp.isCreateFor e.id) = 1
    rw [specCreateOps_countP_createFor]
    exact List.count_eq_one_of_mem hnodup (List.mem_map_of_mem QueueEntry.id he)

/-- Claim C1, counterexample: the snapshot `[sampleLinkData]` (one link
entry, distinct ids trivially) against the empty map emits no `Create`
at all — the cycle aborts on the `AttributeError` raised while building
the link entry's embed — although the claim requires exactly one
`Create` for it. -/
theorem reconcile_empty_map_counterexample :
    (modqueueCycle [] ⟨[], 0⟩ [QueueEntry.link sampleLinkData]).ops = [] ∧
    (modqueueCycle [] ⟨[], 0⟩ [QueueEntry.link sampleLinkData]).queueMap = [] ∧
    (modqueueCycle [] ⟨[], 0⟩ [QueueEntry.link sampleLinkData]).aborted = true :=
  ⟨rfl, rfl, rfl⟩

/-- Witness for `reconcile_empty_map_all_creates`: two comment entries
against the empty map produce exactly two creates with fresh ids 5 and 6
and the corresponding bindings. -/
theorem reconcile_empty_map_all_creates_witness :
    modqueueCycle [] ⟨[], 5⟩
      [QueueEntry.comment sampleCommentData, QueueEntry.comment sampleCommentData2]
    = ⟨[("com1", 5), ("com2", 6)], ⟨[5, 6], 7⟩,
       [SinkOp.create "com1" 5, SinkOp.create "com2" 6], 2, false⟩ :=
  (reconcile_empty_map_all_creates
    [QueueEntry.comment sampleCommentData, QueueEntry.comment sampleCommentData2]
    ⟨[], 5⟩ (by decide) (by decide)).1

/-- Claim C2 (corrected): for a mapping built from snapshot `A ++ e :: B`
(keys exactly the snapshot ids, in order, all bound messages alive) and
the new snapshot `A ++ B` (the snapshot minus `e`), a cycle — provided
every remaining entry renders (comment-kind entries; link-kind rendering
raises) — edits every remaining entry's message (one `Update` each,
carrying its existing message id), deletes exactly one message, namely
the one bound to `e`, and the resulting map is the old one with `e`'s
binding removed. -/
theorem reconcile_removed_entry (A B : List QueueEntry) (e : QueueEntry)
    (MA MB : QueueMap) (me : Nat) (ch : Channel)
    (hMA : MA.map Prod.fst = A.map QueueEntry.id)
    (hMB : MB.map Prod.fst = B.map QueueEntry.id)
    (hnodup : ((A ++ e :: B).map QueueEntry.id).Nodup)
    (hlive : ∀ p ∈ MA ++ (QueueEntry.id e, me) :: MB, p.2 ∈ ch.msgs)
    (hrender : ∀ r ∈ A ++ B, (embed_from_queue_entry r).isOk = true) :
    modqueueCycle (MA ++ (QueueEntry.id e, me) :: MB) ch (A ++ B) =
      ⟨MA ++ MB, Channel.deleteMsg ch me,
       (A ++ B).map (fun r => SinkOp.update r.id
         (dictGet (MA ++ (QueueEntry.id e, me) :: MB) r.id)) ++ [SinkOp.delete me],
       (A ++ B).length + 1, false⟩ ∧
    (modqueueCycle (MA ++ (QueueEntry.id e, me) :: MB) ch (A ++ B)).ops.countP
      SinkOp.isDelete = 1 := by
  have hkeysM : (MA ++ (QueueEntry.id e, me) :: MB).map Prod.fst
      = A.map QueueEntry.id ++ QueueEntry.id e :: B.map QueueEntry.id := by
    simp [hMA, hMB]
  have parts := nodup_middle_parts A B e hnodup
  have hcont : ∀ r ∈ A ++ B,
      dictContains (MA ++ (QueueEntry.id e, me) :: MB) r.id = true := by
    intro r hr
    apply dictContains_of_mem_keys
    rw [hkeysM]
    rcases List.mem_append.mp hr with h | h
    · exact List.mem_append_left _ (List.mem_map_of_mem QueueEntry.id h)
    · exact List.mem_append_right _
        (List.mem_cons_of_mem _ (List.mem_map_of_mem QueueEntry.id h))
  have hliveg : ∀ r ∈ A ++ B,
      dictGet (MA ++ (QueueEntry.id e, me) :: MB) r.id ∈ ch.msgs := by
    intro r hr
    exact hlive _ (dictGet_mem _ r.id (hcont r hr))
  have h1 := processEntriesF_all_live (A ++ B) 0
    (MA ++ (QueueEntry.id e, me) :: MB) ch hcont hliveg hrender
  have hP : ∀ p ∈ MA, p.1 ∈ (A ++ B).map QueueEntry.id := by
    intro p hp
    rw [List.map_append]
    exact List.mem_append_left _ (hMA ▸ List.mem_map_of_mem Prod.fst hp)
  have hQ : ∀ p ∈ MB, p.1 ∈ (A ++ B).map QueueEntry.id := by
    intro p hp
    rw [List.map_append]
    exact List.mem_append_right _ (hMB ▸ List.mem_map_of_mem Prod.fst hp)
  have he : QueueEntry.id e ∉ (A ++ B).map QueueEntry.id := by
    rw [List.map_append]
    intro hm
    rcases List.mem_append.mp hm with h | h
    · exact parts.1 h
    · exact parts.2 h
  have hme : me ∈ ch.msgs :=
    hlive (QueueEntry.id e, me)
      (List.mem_append_right _ (List.mem_cons_self _ _))
  have hdel : dictDel (MA ++ (QueueEntry.id e, me) :: MB) (QueueEntry.id e)
      = MA ++ MB :=
    dictDel_middle MA MB (QueueEntry.id e) me (hMA ▸ parts.1)
  have hcycle : modqueueCycle (MA ++ (QueueEntry.id e, me) :: MB) ch (A ++ B) =
      ⟨MA ++ MB, Channel.deleteMsg ch me,
       (A ++ B).map (fun r => SinkOp.update r.id
         (dictGet (MA ++ (QueueEntry.id e, me) :: MB) r.id)) ++ [SinkOp.delete me],
       (A ++ B).length + 1, false⟩ := by
    unfold modqueueCycle modqueueCycleF
    rw [h1]
    simp only [Bool.false_eq_true, if_false, Nat.zero_add]
    rw [processGoneF_one_gone MA MB (QueueEntry.id e) me _ _ _ _ hP hQ he hme]
    rw [hdel]
  refine ⟨hcycle, ?_⟩
  rw [hcycle]
  show ((A ++ B).map (fun r => SinkOp.update r.id
    (dictGet (MA ++ (QueueEntry.id e, me) :: MB) r.id))
      ++ [SinkOp.delete me]).countP SinkOp.isDelete = 1
  rw [List.countP_append]
  have hz : ((A ++ B).map (fun r => SinkOp.update r.id
      (dictGet (MA ++ (QueueEntry.id e, me) :: MB) r.id))).countP
        SinkOp.isDelete = 0 := by
    refine List.countP_eq_zero.mpr ?_
    intro op hop
    simp only [List.mem_map] at hop
    obtain ⟨r, hr, rfl⟩ := hop
    simp [SinkOp.isDelete]
  rw [hz]
  simp [SinkOp.isDelete]

/-- Claim C2, counterexample: the mapping `{post1 ↦ 10, com1 ↦ 11}` was
built from the snapshot `[link post1, comment com1]`; removing the
comment leaves the snapshot `[link post1]`.  The claim requires exactly
one `Delete` (of message 11) and an `Update` for the remaining entry;
instead the cycle aborts on the link entry's rendering error before the
gone-entries pass, emitting no operation at all and leaving the map
unchanged. -/
theorem reconcile_removed_entry_counterexample :
    (modqueueCycle [("post1", 10), ("com1", 11)] ⟨[10, 11], 12⟩
      [QueueEntry.link sampleLinkData]).ops = [] ∧
    (modqueueCycle [("post1", 10), ("com1", 11)] ⟨[10, 11], 12⟩
      [QueueEntry.link sampleLinkData]).queueMap = [("post1", 10), ("com1", 11)] ∧
    (modqueueCycle [("post1", 10), ("com1", 11)] ⟨[10, 11], 12⟩
      [QueueEntry.link sampleLinkData]).aborted = true :=
  ⟨rfl, rfl, rfl⟩

/-- Witness for `reconcile_removed_entry`: mapping
`{com1 ↦ 10, com2 ↦ 11}` built from two comment entries, snapshot now
missing com2: one update of message 10, one delete of message 11, map
shrinks to `{com1 ↦ 10}`. -/
theorem reconcile_removed_entry_witness :
    modqueueCycle [("com1", 10), ("com2", 11)] ⟨[10, 11], 12⟩
      [QueueEntry.comment sampleCommentData]
    = ⟨[("com1", 10)], ⟨[10], 12⟩,
       [SinkOp.update "com1" 10, SinkOp.delete 11], 2, false⟩ :=
  (reconcile_removed_entry [QueueEntry.comment sampleCommentData] []
    (QueueEntry.comment sampleCommentData2) [("com1", 10)] [] 11 ⟨[10, 11], 12⟩
    (by decide) (by decide) (by decide) (by decide) (by decide)).1

/-- Claim C3 (corrected): for a mapping whose keys are exactly the
snapshot ids, when the message bound to entry `e` no longer exists on
the channel (deleted out-of-band) while all other bound messages are
alive, the cycle — provided every entry of the snapshot renders
(comment-kind entries; link-kind rendering raises) — does not propagate
a not-found error: `safe_get_message` returns `None` and the entry is
re-sent, so the ops carry a `Create` for `e` (with updates for all other
entries), and `e`'s binding is rebound to the freshly issued message id,
which differs from the stale id. -/
theorem reconcile_self_heal_recreates (A B : List QueueEntry) (e : QueueEntry)
    (M : QueueMap) (ch : Channel)
    (hkeys : M.map Prod.fst = (A ++ e :: B).map QueueEntry.id)
    (hnodup : ((A ++ e :: B).map QueueEntry.id).Nodup)
    (hlive : ∀ r ∈ A ++ B, dictGet M r.id ∈ ch.msgs)
    (hdead : dictGet M (QueueEntry.id e) ∉ ch.msgs)
    (hstale : dictGet M (QueueEntry.id e) < ch.nextId)
    (hrender : ∀ r ∈ A ++ e :: B, (embed_from_queue_entry r).isOk = true) :
    modqueueCycle M ch (A ++ e :: B) =
      ⟨dictSet M (QueueEntry.id e) ch.nextId,
       ⟨ch.msgs ++ [ch.nextId], ch.nextId + 1⟩,
       A.map (fun r => SinkOp.update r.id (dictGet M r.id)) ++
         SinkOp.create (QueueEntry.id e) ch.nextId ::
           B.map (fun r => SinkOp.update r.id (dictGet M r.id)),
       A.length + (B.length + 1), false⟩ ∧
    dictGet (modqueueCycle M ch (A ++ e :: B)).queueMap (QueueEntry.id e)
      = ch.nextId ∧
    ch.nextId ≠ dictGet M (QueueEntry.id e) := by
  have parts := nodup_middle_parts A B e hnodup
  have hcontA : ∀ r ∈ A, dictContains M r.id = true := by
    intro r hr
    apply dictContains_of_mem_keys
    rw [hkeys, List.map_append, List.map_cons]
    exact List.mem_append_left _ (List.mem_map_of_mem QueueEntry.id hr)
  have hcontB : ∀ r ∈ B, dictContains M r.id = true := by
    intro r hr
    apply dictContains_of_mem_keys
    rw [hkeys, List.map_append, List.map_cons]
    exact List.mem_append_right _
      (List.mem_cons_of_mem _ (List.mem_map_of_mem QueueEntry.id hr))
  have hcontE : dictContains M (QueueEntry.id e) = true := by
    apply dictContains_of_mem_keys
    rw [hkeys, List.map_append, List.map_cons]
    exact List.mem_append_right _ (List.mem_cons_self _ _)
  have hneB : ∀ r ∈ B, ¬ QueueEntry.id r = QueueEntry.id e := by
    intro r hr hh
    exact parts.2 (hh ▸ List.mem_map_of_mem QueueEntry.id hr)
  have hliveA : ∀ r ∈ A, dictGet M r.id ∈ ch.msgs :=
    fun r hr => hlive r (List.mem_append_left _ hr)
  have hliveB : ∀ r ∈ B, dictGet M r.id ∈ ch.msgs :=
    fun r hr => hlive r (List.mem_append_right _ hr)
  have h1 := processEntriesF_self_heal A B e 0 M ch hcontA hliveA hcontB hliveB
    hneB hrender hcontE hdead
  have hpresent : ∀ p ∈ dictSet M (QueueEntry.id e) ch.nextId,
      p.1 ∈ (A ++ e :: B).map QueueEntry.id := by
    intro p hp
    have h2 : p.1 ∈ (dictSet M (QueueEntry.id e) ch.nextId).map Prod.fst :=
      List.mem_map_of_mem Prod.fst hp
    rw [dictSet_keys_of_contains M (QueueEntry.id e) ch.nextId hcontE, hkeys] at h2
    exact h2
  have hcycle : modqueueCycle M ch (A ++ e :: B) =
      ⟨dictSet M (QueueEntry.id e) ch.nextId,
       ⟨ch.msgs ++ [ch.nextId], ch.nextId + 1⟩,
       A.map (fun r => SinkOp.update r.id (dictGet M r.id)) ++
         SinkOp.create (QueueEntry.id e) ch.nextId ::
           B.map (fun r => SinkOp.update r.id (dictGet M r.id)),
       A.length + (B.length + 1), false⟩ := by
    unfold modqueueCycle modqueueCycleF
    rw [h1]
    simp only [Bool.false_eq_true, if_false, Nat.zero_add]
    rw [processGoneF_all_present _ _ _ _ _ hpresent]
    simp
  refine ⟨hcycle, ?_, by omega⟩
  rw [hcycle]
  show dictGet (dictSet M (QueueEntry.id e) ch.nextId) (QueueEntry.id e)
    = ch.nextId
  exact dictGet_dictSet_self M (QueueEntry.id e) ch.nextId

/-- Claim C3, counterexample: mapping `{post1 ↦ 5}`, channel without
message 5 (the bound message was deleted out-of-band), snapshot still
containing the link entry post1.  The claim requires a `Create` for
post1 and a rebinding to a fresh id; instead the cycle aborts on the
link entry's rendering error: no `Create` is emitted and the stale
binding 5 is kept. -/
theorem reconcile_self_heal_counterexample :
    (modqueueCycle [("post1", 5)] ⟨[], 7⟩
      [QueueEntry.link sampleLinkData]).ops = [] ∧
    (modqueueCycle [("post1", 5)] ⟨[], 7⟩
      [QueueEntry.link sampleLinkData]).queueMap = [("post1", 5)] ∧
    (modqueueCycle [("post1", 5)] ⟨[], 7⟩
      [QueueEntry.link sampleLinkData]).aborted = true :=
  ⟨rfl, rfl, rfl⟩

/-- Witness for `reconcile_self_heal_recreates`: mapping `{com1 ↦ 5}`
with message 5 gone from the channel; the cycle re-creates the message
with fresh id 7 and rebinds com1 to it. -/
theorem reconcile_self_heal_recreates_witness :
    modqueueCycle [("com1", 5)] ⟨[], 7⟩ [QueueEntry.comment sampleCommentData]
      = ⟨[("com1", 7)], ⟨[7], 8⟩, [SinkOp.create "com1" 7], 1, false⟩ ∧
    dictGet (modqueueCycle [("com1", 5)] ⟨[], 7⟩
      [QueueEntry.comment sampleCommentData]).queueMap "com1" = 7 ∧
    (7 : Nat) ≠ dictGet [("com1", 5)] "com1" :=
  reconcile_self_heal_recreates [] [] (QueueEntry.comment sampleCommentData)
    [("com1", 5)] ⟨[], 7⟩ (by decide) (by decide) (by decide) (by decide)
    (by decide) (by decide)

/-- The entry pass over entries that are all in the map with live
messages, when the `j`-th mutating sink call — here necessarily a
`msg.edit` — raises: the edits before it were performed, no binding is
touched (edits never write `queue_map`), the channel is unchanged, and
the pass aborts at the failure. -/
theorem processEntriesF_all_live_fails (entries : List QueueEntry) (j k : Nat)
    (qm : QueueMap) (ch : Channel)
    (hcont : ∀ e ∈ entries, dictContains qm e.id = true)
    (hlive : ∀ e ∈ entries, dictGet qm e.id ∈ ch.msgs)
    (hrender : ∀ e ∈ entries, (embed_from_queue_entry e).isOk = true)
    (hj : j < entries.length) :
    processEntriesF (some (k + j)) k qm ch entries =
      ⟨qm, ch,
       (entries.take j).map (fun e => SinkOp.update e.id (dictGet qm e.id)),
       k + j, true⟩ := by
  induction entries generalizing j k with
  | nil => simp at hj
  | cons e rest ih =>
    have hce := hcont e (List.mem_cons_self e rest)
    have hle := hlive e (List.mem_cons_self e rest)
    obtain ⟨em, hem⟩ := exists_ok_of_isOk (hrender e (List.mem_cons_self e rest))
    have hfetch : safe_get_message ch (dictGet qm e.id)
        = some (dictGet qm e.id) := by
      simp [safe_get_message, hle]
    cases j with
    | zero => simp [processEntriesF, hce, hfetch, hem]
    | succ j2 =>
      have hne : ¬ (some (k + (j2 + 1)) = some k) := by
        simp only [Option.some.injEq]
        omega
      have hj2 : j2 < rest.length := by
        simp only [List.length_cons] at hj
        omega
      have harg : k + (j2 + 1) = (k + 1) + j2 := by omega
      have hrec := ih j2 (k + 1) (fun r hr => hcont r (List.mem_cons_of_mem e hr))
        (fun r hr => hlive r (List.mem_cons_of_mem e hr))
        (fun r hr => hrender r (List.mem_cons_of_mem e hr)) hj2
      simp only [processEntriesF, hce, if_true, hfetch, hem, if_neg hne]
      rw [harg, hrec]
      simp

/-- The entry pass over entries that are all in the map with live
messages, with a fail index at or beyond the pass's last call: no call
of this pass raises, so it completes exactly as with no failure. -/
theorem processEntriesF_all_live_late_fail (entries : List QueueEntry)
    (m k : Nat) (qm : QueueMap) (ch : Channel)
    (hcont : ∀ e ∈ entries, dictContains qm e.id = true)
    (hlive : ∀ e ∈ entries, dictGet qm e.id ∈ ch.msgs)
    (hrender : ∀ e ∈ entries, (embed_from_queue_entry e).isOk = true)
    (hm : k + entries.length ≤ m) :
    processEntriesF (some m) k qm ch entries =
      ⟨qm, ch, entries.map (fun e => SinkOp.update e.id (dictGet qm e.id)),
       k + entries.length, false⟩ := by
  induction entries generalizing k with
  | nil => simp [processEntriesF]
  | cons e rest ih =>
    have hce := hcont e (List.mem_cons_self e rest)
    have hle := hlive e (List.mem_cons_self e rest)
    obtain ⟨em, hem⟩ := exists_ok_of_isOk (hrender e (List.mem_cons_self e rest))
    have hfetch : safe_get_message ch (dictGet qm e.id)
        = some (dictGet qm e.id) := by
      simp [safe_get_message, hle]
    have hne : ¬ (some m = some k) := by
      simp only [Option.some.injEq]
      simp only [List.length_cons] at hm
      omega
    have hm2 : (k + 1) + rest.length ≤ m := by
      simp only [List.length_cons] at hm
      omega
    have hrec := ih (k + 1) (fun r hr => hcont r (List.mem_cons_of_mem e hr))
      (fun r hr => hlive r (List.mem_cons_of_mem e hr))
      (fun r hr => hrender r (List.mem_cons_of_mem e hr)) hm2
    simp only [processEntriesF, hce, if_true, hfetch, hem, if_neg hne]
    rw [hrec]
    simp
    omega

/-- The gone pass when the delete of the single gone entry — the first
mutating call of this pass, at counter `k` — raises: no `Delete` op is
recorded, the channel is unchanged, and the gone entry's binding is
KEPT, because `del self.queue_map[entry_id]` only runs after
`msg.delete()` returns (`overseer.py` lines 171-173). -/
theorem processGoneF_one_gone_fails (P Q : QueueMap) (eid : String) (me : Nat)
    (k : Nat) (qm : QueueMap) (ch : Channel) (ids : List String)
    (hP : ∀ p ∈ P, p.1 ∈ ids) (he : eid ∉ ids) (hm : me ∈ ch.msgs) :
    processGoneF (some k) k (P ++ (eid, me) :: Q) qm ch ids =
      ⟨qm, ch, [], k, true⟩ := by
  induction P with
  | nil =>
    have hfetch : safe_get_message ch me = some me := by
      simp [safe_get_message, hm]
    simp [processGoneF, if_neg he, hfetch]
  | cons p rest ih =>
    have hp : p.1 ∈ ids := hP p (List.mem_cons_self p rest)
    simp only [List.cons_append, processGoneF, if_pos hp]
    exact ih (fun q hq => hP q (List.mem_cons_of_mem p hq))

/-- Claim C4 (corrected): an individual failing sink operation does NOT
leave the rest of the cycle's operations running — the exception
propagates out of the loop body and is only caught by the `except` at
the cycle boundary (`overseer.py` lines 183-185), aborting the whole
pass.  Proved for each kind of failing operation:

1. a failing `channel.send` (create): in a cycle over all-new rendering
   entries whose `j`-th send raises, exactly the creates before the
   failure happened and their bindings are kept; the failing entry and
   every entry after it get no operation and no binding;
2. a failing `msg.edit` (update): in a cycle over entries that are all
   bound to live messages, whose `j`-th edit raises, exactly the edits
   before the failure happened; no binding changes and the gone-entries
   pass never runs, so no `Delete` is emitted either;
3. a failing `msg.delete` (delete): with one entry gone from the
   snapshot, all remaining entries are updated first, then the delete
   raises: no `Delete` op is performed and the gone entry's binding is
   kept (so it is retried next cycle), since `del` follows the delete
   call. -/
theorem cycle_aborts_at_failed_op :
    (∀ (entries : List QueueEntry) (ch : Channel) (j : Nat),
      (entries.map QueueEntry.id).Nodup →
      (∀ e ∈ entries, (embed_from_queue_entry e).isOk = true) →
      j < entries.length →
      modqueueCycleF (some j) [] ch entries =
        ⟨specCreatePairs ch.nextId (entries.take j),
         ⟨ch.msgs ++ idsFrom ch.nextId j, ch.nextId + j⟩,
         specCreateOps ch.nextId (entries.take j), j, true⟩) ∧
    (∀ (entries : List QueueEntry) (M : QueueMap) (ch : Channel) (j : Nat),
      (∀ e ∈ entries, dictContains M e.id = true) →
      (∀ e ∈ entries, dictGet M e.id ∈ ch.msgs) →
      (∀ e ∈ entries, (embed_from_queue_entry e).isOk = true) →
      j < entries.length →
      modqueueCycleF (some j) M ch entries =
        ⟨M, ch,
         (entries.take j).map (fun e => SinkOp.update e.id (dictGet M e.id)),
         j, true⟩) ∧
    (∀ (A B : List QueueEntry) (e : QueueEntry) (MA MB : QueueMap) (me : Nat)
        (ch : Channel),
      MA.map Prod.fst = A.map QueueEntry.id →
      MB.map Prod.fst = B.map QueueEntry.id →
      ((A ++ e :: B).map QueueEntry.id).Nodup →
      (∀ p ∈ MA ++ (QueueEntry.id e, me) :: MB, p.2 ∈ ch.msgs) →
      (∀ r ∈ A ++ B, (embed_from_queue_entry r).isOk = true) →
      modqueueCycleF (some (A ++ B).length)
          (MA ++ (QueueEntry.id e, me) :: MB) ch (A ++ B) =
        ⟨MA ++ (QueueEntry.id e, me) :: MB, ch,
         (A ++ B).map (fun r => SinkOp.update r.id
           (dictGet (MA ++ (QueueEntry.id e, me) :: MB) r.id)),
         (A ++ B).length, true⟩) := by
  refine ⟨?_, ?_, ?_⟩
  · intro entries ch j hnodup hrender hj
    have h1 := processEntriesF_all_new_fails entries j 0 [] ch
      (fun e he => rfl) hrender hnodup hj
    rw [Nat.zero_add] at h1
    unfold modqueueCycleF
    rw [h1]
    simp
  · intro entries M ch j hcont hlive hrender hj
    have h1 := processEntriesF_all_live_fails entries j 0 M ch
      hcont hlive hrender hj
    rw [Nat.zero_add] at h1
    unfold modqueueCycleF
    rw [h1]
    simp
  · intro A B e MA MB me ch hMA hMB hnodup hlive hrender
    have hkeysM : (MA ++ (QueueEntry.id e, me) :: MB).map Prod.fst
        = A.map QueueEntry.id ++ QueueEntry.id e :: B.map QueueEntry.id := by
      simp [hMA, hMB]
    have parts := nodup_middle_parts A B e hnodup
    have hcont : ∀ r ∈ A ++ B,
        dictContains (MA ++ (QueueEntry.id e, me) :: MB) r.id = true := by
      intro r hr
      apply dictContains_of_mem_keys
      rw [hkeysM]
      rcases List.mem_append.mp hr with h | h
      · exact List.mem_append_left _ (List.mem_map_of_mem QueueEntry.id h)
      · exact List.mem_append_right _
          (List.mem_cons_of_mem _ (List.mem_map_of_mem QueueEntry.id h))
    have hliveg : ∀ r ∈ A ++ B,
        dictGet (MA ++ (QueueEntry.id e, me) :: MB) r.id ∈ ch.msgs := by
      intro r hr
      exact hlive _ (dictGet_mem _ r.id (hcont r hr))
    have h1 := processEntriesF_all_live_late_fail (A ++ B) ((A ++ B).length) 0
      (MA ++ (QueueEntry.id e, me) :: MB) ch hcont hliveg hrender
      (by omega)
    have hP : ∀ p ∈ MA, p.1 ∈ (A ++ B).map QueueEntry.id := by
      intro p hp
      rw [List.map_append]
      exact List.mem_append_left _ (hMA ▸ List.mem_map_of_mem Prod.fst hp)
    have he : QueueEntry.id e ∉ (A ++ B).map QueueEntry.id := by
      rw [List.map_append]
      intro hmm
      rcases List.mem_append.mp hmm with h | h
      · exact parts.1 h
      · exact parts.2 h
    have hme : me ∈ ch.msgs :=
      hlive (QueueEntry.id e, me)
        (List.mem_append_right _ (List.mem_cons_self _ _))
    unfold modqueueCycleF
    rw [h1]
    simp only [Bool.false_eq_true, if_false, Nat.zero_add]
    rw [processGoneF_one_gone_fails MA MB (QueueEntry.id e) me _ _ _ _
      hP he hme]
    simp

/-- Claim C4, counterexample: with two all-new comment entries and the
first `channel.send` raising (fail index 0), the cycle performs no
operation at all and binds nothing — in particular the second entry's
`Create`, which the claim says must still be attempted, never happens,
and its binding (not only the failing entry's) is left un-updated. -/
theorem cycle_abort_counterexample :
    (modqueueCycleF (some 0) [] ⟨[], 0⟩
      [QueueEntry.comment sampleCommentData,
       QueueEntry.comment sampleCommentData2]).ops = [] ∧
    (modqueueCycleF (some 0) [] ⟨[], 0⟩
      [QueueEntry.comment sampleCommentData,
       QueueEntry.comment sampleCommentData2]).queueMap = [] ∧
    (modqueueCycleF (some 0) [] ⟨[], 0⟩
      [QueueEntry.comment sampleCommentData,
       QueueEntry.comment sampleCommentData2]).aborted = true :=
  ⟨rfl, rfl, rfl⟩

/-- Witness for `cycle_aborts_at_failed_op`, one concrete run per
conjunct: (1) two all-new comment entries with the second send (index 1)
raising — the first create happened and is bound, the second got
nothing; (2) two bound comment entries with the second edit (index 1)
raising — one update performed, bindings untouched, no delete pass;
(3) mapping {com1 ↦ 10, com2 ↦ 11} with com2 gone and its delete
(index 1, after com1's edit) raising — com1 updated, no delete emitted,
com2's binding kept. -/
theorem cycle_aborts_at_failed_op_witness :
    modqueueCycleF (some 1) [] ⟨[], 0⟩
      [QueueEntry.comment sampleCommentData,
       QueueEntry.comment sampleCommentData2]
    = ⟨[("com1", 0)], ⟨[0], 1⟩, [SinkOp.create "com1" 0], 1, true⟩ ∧
    modqueueCycleF (some 1) [("com1", 10), ("com2", 11)] ⟨[10, 11], 12⟩
      [QueueEntry.comment sampleCommentData,
       QueueEntry.comment sampleCommentData2]
    = ⟨[("com1", 10), ("com2", 11)], ⟨[10, 11], 12⟩,
       [SinkOp.update "com1" 10], 1, true⟩ ∧
    modqueueCycleF (some 1) [("com1", 10), ("com2", 11)] ⟨[10, 11], 12⟩
      [QueueEntry.comment sampleCommentData]
    = ⟨[("com1", 10), ("com2", 11)], ⟨[10, 11], 12⟩,
       [SinkOp.update "com1" 10], 1, true⟩ :=
  ⟨cycle_aborts_at_failed_op.1
    [QueueEntry.comment sampleCommentData, QueueEntry.comment sampleCommentData2]
    ⟨[], 0⟩ 1 (by decide) (by decide) (by decide),
   cycle_aborts_at_failed_op.2.1
    [QueueEntry.comment sampleCommentData, QueueEntry.comment sampleCommentData2]
    [("com1", 10), ("com2", 11)] ⟨[10, 11], 12⟩ 1
    (by decide) (by decide) (by decide) (by decide),
   cycle_aborts_at_failed_op.2.2
    [QueueEntry.comment sampleCommentData] []
    (QueueEntry.comment sampleCommentData2) [("com1", 10)] [] 11 ⟨[10, 11], 12⟩
    (by decide) (by decide) (by decide) (by decide) (by decide)⟩
